import Mathlib

/-!
# Sustainable Store: cart store and checkout of `src/js/app.js`

A shallow embedding of the cart subsystem of `app.js` (the `Cart` object,
`updateCartBadge`, the order-summary arithmetic of the cart and checkout pages and
the place-order click handler), followed by theorems about it.

Modelling conventions.

* JavaScript numbers are IEEE 754 doubles. Quantities are whole numbers: a stored
  `qty` is an `Int` (every caller passes the result of `parseInt`, `it.qty+1` or
  `Math.max(1, it.qty-1)`; a call with a quantity that is `NaN` or an infinity is
  outside the model), and a sum of quantities is rounded to the nearest double (ties to
  even), an infinity beyond the double range (`JsWhole`). Prices and money
  amounts are finite doubles given by their exact rational value, and their sums and
  products are rounded the same way (`JsNum`, `fl`). The sign of zero is not tracked.
* `localStorage` is reduced to the one slot `Cart.key`. The text in the slot is
  represented by what the built-in `JSON.parse` makes of it (`StoredText`), and
  `JSON.stringify` of an array of items produces the text that parses back to that
  array. `JSON.stringify` writes a number that is not finite as `null`; every use the
  program makes of a stored `qty` (`+`, `>`, `*`) converts `null` to 0, and a stored
  `null` is represented by the quantity 0.
* A thrown exception is `Except.error`; state changes made before the throw are
  lost together with the rest of the handler, which is enough here because every
  operation writes only after its last throwing call.
-/

namespace SustainableStore

/-! ## JavaScript numbers -/

/-- The least `sh` with `a / 2 ^ sh < d * 2 ^ 53`, found by halving `a` (at most
`fuel` times): the number of low bits that `a / d` has beyond 53 significant bits. -/
def upShift : Nat → Nat → Nat → Nat
  | 0, _, _ => 0
  | fuel + 1, a, d => if a < d * 2 ^ 53 then 0 else upShift fuel (a / 2) d + 1

/-- The least `t` with `d * 2 ^ 52 ≤ a * 2 ^ t`, found by doubling `a`, but at most
`fuel`: the number of binary places needed to write `a / d` with 53 significant bits,
capped at the finest exponent of the format. -/
def downShift : Nat → Nat → Nat → Nat
  | 0, _, _ => 0
  | fuel + 1, a, d => if d * 2 ^ 52 ≤ a then 0 else downShift fuel (2 * a) d + 1

/-- The natural number nearest to `num / den`, a tie going to the even neighbour. -/
def roundHalfEvenDiv (num den : Nat) : Nat :=
  let q := num / den
  let r := num % den
  if 2 * r < den then q else if den < 2 * r then q + 1 else if q % 2 = 0 then q else q + 1

/-- The double nearest to the natural number `a` (ties to even), the upper end of the
range aside: `a` itself below `2 ^ 53`, otherwise `a` rounded to 53 significant bits. -/
def roundNat (a : Nat) : Nat :=
  if a < 2 ^ 53 then a
  else
    let sh := upShift a a 1
    roundHalfEvenDiv a (2 ^ sh) * 2 ^ sh

/-- The double nearest to the integer `n`, the ends of the range aside. -/
def roundInt : Int → Int
  | .ofNat a => (roundNat a : Nat)
  | .negSucc a => -((roundNat (a + 1) : Nat) : Int)

/-- The magnitude from which a number rounds to an infinity: the midpoint between the
largest double `2 ^ 1024 - 2 ^ 971` and `2 ^ 1024`. -/
def doubleOverflow : Nat := 2 ^ 1024 - 2 ^ 970

/-- A JavaScript number that holds a whole number, or an infinity: what a sum of
quantities can be. -/
inductive JsWhole where
  | fin (n : Int)
  | posInf
  | negInf
deriving DecidableEq, Repr

instance (n : Nat) : OfNat JsWhole n := ⟨.fin n⟩

/-- The double that an exact whole result `n` is rounded to. -/
def jsRoundInt (n : Int) : JsWhole :=
  if (doubleOverflow : Int) ≤ n then .posInf
  else if n ≤ -(doubleOverflow : Int) then .negInf
  else .fin (roundInt n)

/-- The operator `+` on a running sum and a stored quantity. -/
def JsWhole.add : JsWhole → Int → JsWhole
  | .fin a, b => jsRoundInt (a + b)
  | .posInf, _ => .posInf
  | .negInf, _ => .negInf

/-- Whether the number is finite. -/
def JsWhole.isFinite : JsWhole → Bool
  | .fin _ => true
  | .posInf => false
  | .negInf => false

/-- The quantity read back after `JSON.stringify` and `JSON.parse`: a finite number
unchanged, an infinity as `null`, represented by 0. -/
def JsWhole.stored : JsWhole → Int
  | .fin n => n
  | .posInf => 0
  | .negInf => 0

/-- A JavaScript number: a finite double given by its exact value, an infinity, or
`NaN`. -/
inductive JsNum where
  | fin (q : ℚ)
  | posInf
  | negInf
  | nan
deriving DecidableEq, Repr

/-- The double nearest to the positive rational `a / d` (ties to even), the upper end
of the range aside. With 53 significant bits when `2 ^ (-1022) ≤ a / d`, in steps of
`2 ^ (-1074)` below. -/
def roundPos (a d : Nat) : ℚ :=
  if d * 2 ^ 53 ≤ a then
    let sh := upShift a a d
    ((roundHalfEvenDiv a (d * 2 ^ sh) * 2 ^ sh : Nat) : ℚ)
  else
    let t := downShift 1074 a d
    mkRat (roundHalfEvenDiv (a * 2 ^ t) d) (2 ^ t)

/-- The double that an exact result `y` is rounded to (round to nearest, ties to even;
an infinity from the midpoint between the largest double and `2 ^ 1024` on). -/
def fl (y : ℚ) : JsNum :=
  if (doubleOverflow : ℚ) ≤ y then .posInf
  else if y ≤ -(doubleOverflow : ℚ) then .negInf
  else if y = 0 then .fin 0
  else if 0 < y then .fin (roundPos y.num.natAbs y.den)
  else .fin (-roundPos y.num.natAbs y.den)

/-- A whole number or an infinity, as a number. -/
def JsWhole.toNum : JsWhole → JsNum
  | .fin n => .fin (n : ℚ)
  | .posInf => .posInf
  | .negInf => .negInf

/-- The operator `+` on two numbers. -/
def JsNum.add : JsNum → JsNum → JsNum
  | .fin a, .fin b => fl (a + b)
  | .nan, _ => .nan
  | _, .nan => .nan
  | .posInf, .negInf => .nan
  | .negInf, .posInf => .nan
  | .posInf, _ => .posInf
  | _, .posInf => .posInf
  | .negInf, _ => .negInf
  | _, .negInf => .negInf

/-- The operator `*` on two finite numbers. -/
def jsMul (a b : ℚ) : JsNum := fl (a * b)

instance {ε α : Type} [DecidableEq ε] [DecidableEq α] : DecidableEq (Except ε α)
  | .ok a, .ok b =>
    if h : a = b then isTrue (by rw [h]) else isFalse (fun h2 => h (Except.ok.inj h2))
  | .error a, .error b =>
    if h : a = b then isTrue (by rw [h]) else isFalse (fun h2 => h (Except.error.inj h2))
  | .ok _, .error _ => isFalse (fun h => Except.noConfusion h)
  | .error _, .ok _ => isFalse (fun h => Except.noConfusion h)

/-! ## Data model -/

/-- A catalog record of `/data/products.json`. -/
structure Product where
  id : String
  name : String
  short : String
  description : String
  price : ℚ
  image : String
deriving DecidableEq, Repr

/-- A cart line: the object `{...product, qty}` built in `Cart.add`. -/
structure CartItem where
  id : String
  name : String
  short : String
  description : String
  price : ℚ
  image : String
  qty : Int
deriving DecidableEq, Repr

/-- The object literal `{...product, qty}` of `Cart.add`. -/
def CartItem.ofProduct (product : Product) (qty : Int) : CartItem :=
  { id := product.id, name := product.name, short := product.short,
    description := product.description, price := product.price,
    image := product.image, qty := qty }

/-- The exceptions the modelled code can raise. -/
inductive JsError where
  | syntaxError
  | typeError
deriving DecidableEq, Repr

/-- A value returned by `JSON.parse`, as far as the cart code can tell values apart:
an array of cart items, or a value that is not an array (`null`, a number, a string,
a boolean, an object), on which the array methods `find`, `map`, `filter`, `reduce`
do not exist. Arrays with elements that are not cart-item objects are outside the
model. -/
inductive JsValue where
  | array (items : List CartItem)
  | nonArray
deriving DecidableEq, Repr

/-- A string held in the storage slot: the empty string, a non-empty text outside the
JSON grammar, or a text of the JSON grammar together with the value it denotes. -/
inductive StoredText where
  | empty
  | notJson
  | json (v : JsValue)
deriving DecidableEq, Repr

/-- JavaScript truthiness of a string: only the empty string is falsy. -/
def StoredText.truthy : StoredText → Bool
  | .empty => false
  | .notJson => true
  | .json _ => true

/-- The string literal `'[]'`. -/
def StoredText.emptyArrayLiteral : StoredText := .json (.array [])

/-- The built-in `JSON.parse`: throws a `SyntaxError` on text that is not JSON (the
empty string included). -/
def JSON.parse : StoredText → Except JsError JsValue
  | .empty => .error .syntaxError
  | .notJson => .error .syntaxError
  | .json v => .ok v

/-- The built-in `JSON.stringify` on an array of cart items. -/
def JSON.stringify (items : List CartItem) : StoredText := .json (.array items)

/-- Calling an array method on a value: a `TypeError` unless the value is an array. -/
def JsValue.asArray : JsValue → Except JsError (List CartItem)
  | .array items => .ok items
  | .nonArray => .error .typeError

/-- The part of the browser the cart code reads and writes: the storage slot
`localStorage['sustainable_cart_v1']` (`none` when the key is absent, which
`getItem` reports as `null`) and the number shown in the `.cart-badge` elements. -/
structure World where
  storage : Option StoredText
  badge : JsWhole
deriving DecidableEq, Repr

/-! ## The `Cart` object (app.js lines 27-51) and `updateCartBadge` (lines 54-58) -/

/-- The expression `localStorage.getItem(this.key) || '[]'`. -/
def Cart.storedOrDefault (w : World) : StoredText :=
  match w.storage with
  | none => StoredText.emptyArrayLiteral
  | some s => if s.truthy then s else StoredText.emptyArrayLiteral

/-- The method `get(){ return JSON.parse(localStorage.getItem(this.key) || '[]'); }`. -/
def Cart.get (w : World) : Except JsError JsValue :=
  JSON.parse (Cart.storedOrDefault w)

/-- The method `save(items){ localStorage.setItem(this.key, JSON.stringify(items)); }`. -/
def Cart.save (items : List CartItem) (w : World) : World :=
  { w with storage := some (JSON.stringify items) }

/-- The count of line 56: `Cart.get().reduce((s,i)=>s+i.qty,0)` on the array read. -/
def badgeCount (items : List CartItem) : JsWhole :=
  items.foldl (fun s i => s.add i.qty) 0

/-- The function `updateCartBadge`: the count of the stored items, written into every
badge. -/
def updateCartBadge (w : World) : Except JsError World := do
  let v ← Cart.get w
  let items ← v.asArray
  let count := badgeCount items
  pure { w with badge := count }

/-- The statement `found.qty += qty` where `found` is the first item with the given
id: the array is unchanged but for that one object, whose `qty` is the rounded sum as
the following `save` stores it. -/
def Cart.bumpFound (id : String) (qty : Int) : List CartItem → List CartItem
  | [] => []
  | i :: rest =>
    if i.id = id then { i with qty := ((JsWhole.fin i.qty).add qty).stored } :: rest
    else i :: Cart.bumpFound id qty rest

/-- Lines 33-34 of `Cart.add` on the array read from storage:
`found = items.find(i=>i.id===product.id)`, then either `found.qty += qty` or
`items.push({...product, qty})`. -/
def Cart.addItems (product : Product) (qty : Int) (items : List CartItem) :
    List CartItem :=
  match items.find? (fun i => decide (i.id = product.id)) with
  | some _ => Cart.bumpFound product.id qty items
  | none => items ++ [CartItem.ofProduct product qty]

/-- Line 40 of `Cart.update`:
`items.map(i=> i.id===id ? {...i, qty} : i).filter(i=>i.qty>0)`. -/
def Cart.updateItems (id : String) (qty : Int) (items : List CartItem) :
    List CartItem :=
  (items.map (fun i => if i.id = id then { i with qty := qty } else i)).filter
    (fun i => decide (i.qty > 0))

/-- Line 46 of `Cart.remove`: `items.filter(i=>i.id!==id)`. -/
def Cart.removeItems (id : String) (items : List CartItem) : List CartItem :=
  items.filter (fun i => decide (i.id ≠ id))

/-- The method `Cart.add(product, qty)`. -/
def Cart.add (product : Product) (qty : Int) (w : World) : Except JsError World := do
  let v ← Cart.get w
  let items ← v.asArray
  updateCartBadge (Cart.save (Cart.addItems product qty items) w)

/-- The method `Cart.update(id, qty)`. -/
def Cart.update (id : String) (qty : Int) (w : World) : Except JsError World := do
  let v ← Cart.get w
  let items ← v.asArray
  updateCartBadge (Cart.save (Cart.updateItems id qty items) w)

/-- The method `Cart.remove(id)`. -/
def Cart.remove (id : String) (w : World) : Except JsError World := do
  let v ← Cart.get w
  let items ← v.asArray
  updateCartBadge (Cart.save (Cart.removeItems id items) w)

/-- The method `clear(){ localStorage.removeItem(this.key); updateCartBadge(); }`. -/
def Cart.clear (w : World) : Except JsError World :=
  updateCartBadge { w with storage := none }

/-! ## Sequences of cart operations -/

/-- One call of a mutating `Cart` method with its arguments. -/
inductive CartOp where
  | add (product : Product) (qty : Int)
  | update (id : String) (qty : Int)
  | remove (id : String)
deriving DecidableEq, Repr

/-- Performs one call. -/
def CartOp.apply : CartOp → World → Except JsError World
  | .add product qty, w => Cart.add product qty w
  | .update id qty, w => Cart.update id qty w
  | .remove id, w => Cart.remove id w

/-- Performs the calls from left to right; the first exception ends the run. -/
def runOps : List CartOp → World → Except JsError World
  | [], w => .ok w
  | op :: ops, w =>
    match op.apply w with
    | .ok w1 => runOps ops w1
    | .error e => .error e

/-- Whether a call respects the convention that `Cart.add` is given `qty ≥ 1`. -/
def CartOp.addsAtLeastOne : CartOp → Prop
  | .add _ qty => 1 ≤ qty
  | .update _ _ => True
  | .remove _ => True

instance : DecidablePred CartOp.addsAtLeastOne := fun op => by
  cases op <;> unfold CartOp.addsAtLeastOne <;> infer_instance

/-- Whether the call writes a finite `qty`: false exactly for a `Cart.add` of a product
already in the cart whose `found.qty += qty` is an infinity. -/
def CartOp.keepsFinite : CartOp → List CartItem → Bool
  | .add product qty, items =>
    match items.find? (fun i => decide (i.id = product.id)) with
    | some found => ((JsWhole.fin found.qty).add qty).isFinite
    | none => true
  | .update _ _, _ => true
  | .remove _, _ => true

/-- Whether every call of the run writes a finite `qty`, each call judged on the cart
it finds. -/
def runKeepsFinite : List CartOp → World → Bool
  | [], _ => true
  | op :: ops, w =>
    match Cart.get w, op.apply w with
    | .ok (.array items), .ok w1 => op.keepsFinite items && runKeepsFinite ops w1
    | _, _ => true

/-- A browser in which nothing is stored under the cart key and the badge shows 0. -/
def World.fresh : World := { storage := none, badge := 0 }

/-! ## Sample catalog records used in the worked examples -/

/-- A catalog record priced 10.00. -/
def sampleCase : Product :=
  { id := "p1", name := "Bamboo Case", short := "Compostable case",
    description := "A phone case made of bamboo fibre", price := 10,
    image := "/img/case.jpg" }

/-- A second catalog record, priced 7.50. -/
def sampleCable : Product :=
  { id := "p2", name := "Hemp Cable", short := "Braided cable",
    description := "A charging cable braided with hemp", price := 7.5,
    image := "/img/cable.jpg" }

/-- A browser whose stored cart is the given array of items. -/
def World.holding (items : List CartItem) : World :=
  { storage := some (JSON.stringify items), badge := 0 }

/-! ## Order summary (cart page lines 150-153, checkout page lines 222-229) -/

/-- The three numbers of the order summary. -/
structure Summary where
  subtotal : JsNum
  shipping : JsNum
  total : JsNum
deriving DecidableEq, Repr

/-- The `subtotal` of lines 151 and 228: `items.reduce((s,i)=>s + i.price * i.qty, 0)`. -/
def subtotalOf (items : List CartItem) : JsNum :=
  items.foldl (fun s i => s.add (jsMul i.price (i.qty : ℚ))) (.fin 0)

/-- Lines 151-153:
`subtotal = items.reduce((s,i)=>s + i.price * i.qty, 0)`,
`shipping = items.length ? 4.99 : 0`, `total = subtotal + shipping`. -/
def cartSummary (items : List CartItem) : Summary :=
  let subtotal := subtotalOf items
  let shipping : JsNum := if items.length ≠ 0 then fl 4.99 else .fin 0
  { subtotal := subtotal, shipping := shipping, total := subtotal.add shipping }

/-- The cart page: no summary is computed when `items.length === 0` (the page says
the cart is empty), otherwise the summary of lines 151-153. -/
def cartPageSummary (items : List CartItem) : Option Summary :=
  if items.length = 0 then none else some (cartSummary items)

/-- The checkout page (lines 222-229): nothing is computed for an empty cart,
otherwise `subtotal`, the constant `shipping = 4.99` and `total`. -/
def checkoutSummary (items : List CartItem) : Option Summary :=
  if items.length = 0 then none
  else
    let subtotal := subtotalOf items
    let shipping : JsNum := fl 4.99
    some { subtotal := subtotal, shipping := shipping, total := subtotal.add shipping }

/-! ## Place order (lines 234-244) -/

/-- The code points removed by `String.prototype.trim`: ECMAScript WhiteSpace and
LineTerminator. -/
def isJsWhitespace (c : Char) : Bool :=
  let n := c.toNat
  n = 0x09 || n = 0x0A || n = 0x0B || n = 0x0C || n = 0x0D || n = 0x20 || n = 0xA0 ||
  n = 0x1680 || (0x2000 ≤ n && n ≤ 0x200A) || n = 0x2028 || n = 0x2029 ||
  n = 0x202F || n = 0x205F || n = 0x3000 || n = 0xFEFF

/-- The method `String.prototype.trim` on the characters of a string. -/
def jsTrim (s : List Char) : List Char :=
  ((s.dropWhile isJsWhitespace).reverse.dropWhile isJsWhitespace).reverse

/-- What the place-order handler does to the page besides the cart. -/
inductive Effect where
  | alert (message : String)
  | navigate (page : String) (orderId : String)
deriving DecidableEq, Repr

/-- The expression `'ORD-' + Math.random().toString(36).slice(2,9).toUpperCase()`,
given the text `Math.random().toString(36)`. -/
def makeOrderId (random36 : String) : String :=
  "ORD-" ++ String.mk (((random36.toList.drop 2).take 7).map Char.toUpper)

/-- The click handler of the place-order button, given the values of the two billing
fields and the text produced by `Math.random().toString(36)`:
`if(!name || !email){ alert(...); return; }`, then the order id, `Cart.clear()` and
the navigation to the confirmation page. -/
def placeOrder (billingName billingEmail : String) (random36 : String) (w : World) :
    Except JsError (World × Effect) :=
  let name := jsTrim billingName.toList
  let email := jsTrim billingEmail.toList
  if name.isEmpty || email.isEmpty then
    .ok (w, Effect.alert "Please complete billing name and email")
  else do
    let orderId := makeOrderId random36
    let w1 ← Cart.clear w
    pure (w1, Effect.navigate "order-success.html" orderId)

/-- Whether the handler placed an order: it navigated to the confirmation page. -/
def Effect.orderPlaced : Effect → Bool
  | .alert _ => false
  | .navigate _ _ => true

/-- The order identifier carried by the effect, if any. -/
def Effect.orderId? : Effect → Option String
  | .alert _ => none
  | .navigate _ orderId => some orderId

/-! ## Shared lemmas -/

theorem ok_bind {α β : Type} (a : α) (f : α → Except JsError β) :
    ((Except.ok a : Except JsError α) >>= f) = f a := rfl

theorem get_save (items : List CartItem) (w : World) :
    Cart.get (Cart.save items w) = .ok (.array items) := rfl

theorem get_of_badge_update (items : List CartItem) (b : JsWhole) :
    Cart.get { storage := some (JSON.stringify items), badge := b } =
      .ok (.array items) := rfl

theorem add_eq_of_get {w : World} {items : List CartItem} (product : Product) (qty : Int)
    (h : Cart.get w = .ok (.array items)) :
    Cart.add product qty w =
      .ok { storage := some (JSON.stringify (Cart.addItems product qty items)),
            badge := badgeCount (Cart.addItems product qty items) } := by
  unfold Cart.add
  rw [h]
  rfl

theorem update_eq_of_get {w : World} {items : List CartItem} (id : String) (qty : Int)
    (h : Cart.get w = .ok (.array items)) :
    Cart.update id qty w =
      .ok { storage := some (JSON.stringify (Cart.updateItems id qty items)),
            badge := badgeCount (Cart.updateItems id qty items) } := by
  unfold Cart.update
  rw [h]
  rfl

theorem remove_eq_of_get {w : World} {items : List CartItem} (id : String)
    (h : Cart.get w = .ok (.array items)) :
    Cart.remove id w =
      .ok { storage := some (JSON.stringify (Cart.removeItems id items)),
            badge := badgeCount (Cart.removeItems id items) } := by
  unfold Cart.remove
  rw [h]
  rfl

theorem find_none_of_absent {items : List CartItem} {id : String}
    (h : ∀ i ∈ items, i.id ≠ id) :
    items.find? (fun i => decide (i.id = id)) = none := by
  rw [List.find?_eq_none]
  intro i hi
  simpa using h i hi

theorem addItems_of_absent {items : List CartItem} (product : Product) (qty : Int)
    (h : ∀ i ∈ items, i.id ≠ product.id) :
    Cart.addItems product qty items = items ++ [CartItem.ofProduct product qty] := by
  unfold Cart.addItems
  rw [find_none_of_absent h]

theorem bumpFound_append_hit (items : List CartItem) (x : CartItem) (qty : Int)
    (h : ∀ i ∈ items, i.id ≠ x.id) :
    Cart.bumpFound x.id qty (items ++ [x]) =
      items ++ [{ x with qty := ((JsWhole.fin x.qty).add qty).stored }] := by
  induction items with
  | nil => simp [Cart.bumpFound]
  | cons a rest ih =>
    have ha : a.id ≠ x.id := h a (List.mem_cons_self _ _)
    have hrest : ∀ i ∈ rest, i.id ≠ x.id := fun i hi => h i (List.mem_cons_of_mem _ hi)
    simp [Cart.bumpFound, ha, ih hrest]

theorem addItems_append_hit (items : List CartItem) (product : Product) (q1 q2 : Int)
    (h : ∀ i ∈ items, i.id ≠ product.id) :
    Cart.addItems product q2 (items ++ [CartItem.ofProduct product q1]) =
      items ++ [CartItem.ofProduct product ((JsWhole.fin q1).add q2).stored] := by
  unfold Cart.addItems
  have hfind : (items ++ [CartItem.ofProduct product q1]).find?
      (fun i => decide (i.id = product.id)) = some (CartItem.ofProduct product q1) := by
    rw [List.find?_append, find_none_of_absent h]
    simp [CartItem.ofProduct]
  rw [hfind]
  exact bumpFound_append_hit items (CartItem.ofProduct product q1) q2 h

/-! ## Rounding of whole numbers -/

theorem pow53_lt_doubleOverflow : 2 ^ 53 < doubleOverflow := by
  unfold doubleOverflow
  norm_num

theorem roundInt_of_natAbs_lt (n : Int) (h : n.natAbs < 2 ^ 53) : roundInt n = n := by
  cases n with
  | ofNat a =>
    have ha : a < 2 ^ 53 := by simpa using h
    simp only [roundInt, roundNat, ha, if_true]
    rfl
  | negSucc a =>
    have ha : a + 1 < 2 ^ 53 := by simpa [Int.natAbs] using h
    simp only [roundInt, roundNat, ha, if_true]
    rfl

/-- Every integer of magnitude at most `2 ^ 53` is a double. -/
theorem roundInt_of_safe (n : Int) (h : n.natAbs ≤ 2 ^ 53) : roundInt n = n := by
  rcases Nat.lt_or_ge n.natAbs (2 ^ 53) with hlt | hge
  · exact roundInt_of_natAbs_lt n hlt
  · have heq : n.natAbs = 2 ^ 53 := Nat.le_antisymm h hge
    rcases Int.natAbs_eq n with hn | hn
    · rw [hn, heq]
      decide
    · rw [hn, heq]
      decide

theorem jsRoundInt_of_safe (n : Int) (h : n.natAbs ≤ 2 ^ 53) : jsRoundInt n = .fin n := by
  have hb := pow53_lt_doubleOverflow
  have h1 : ¬ ((doubleOverflow : Int) ≤ n) := by omega
  have h2 : ¬ (n ≤ -(doubleOverflow : Int)) := by omega
  simp only [jsRoundInt, h1, h2, if_false, roundInt_of_safe n h]

theorem upShift_pow_le (fuel a : Nat) (ha : 1 ≤ a) : 2 ^ upShift fuel a 1 ≤ a := by
  induction fuel generalizing a with
  | zero => simpa [upShift] using ha
  | succ fuel ih =>
    unfold upShift
    split
    · simpa using ha
    · rename_i hbig
      have hbig2 : 2 ^ 53 ≤ a := by omega
      have hhalf : 1 ≤ a / 2 := by
        have : (2:Nat) ^ 53 = 2 * 2 ^ 52 := by norm_num
        omega
      have := ih (a / 2) hhalf
      rw [pow_succ]
      omega

theorem le_roundHalfEvenDiv (num den : Nat) : num / den ≤ roundHalfEvenDiv num den := by
  unfold roundHalfEvenDiv
  simp only
  split
  · exact le_refl _
  · split
    · exact Nat.le_succ _
    · split
      · exact le_refl _
      · exact Nat.le_succ _

theorem roundNat_pos (a : Nat) (ha : 0 < a) : 0 < roundNat a := by
  unfold roundNat
  split
  · exact ha
  · simp only
    have hpow := upShift_pow_le a a ha
    have hq : 0 < a / 2 ^ upShift a a 1 := Nat.div_pos hpow (by positivity)
    have hk := le_roundHalfEvenDiv a (2 ^ upShift a a 1)
    have h2 : 0 < 2 ^ upShift a a 1 := by positivity
    exact Nat.mul_pos (by omega) h2

/-- Rounding a positive whole number gives a positive whole number. -/
theorem roundInt_pos (n : Int) (hn : 0 < n) : 0 < roundInt n := by
  cases n with
  | ofNat a =>
    have ha : 0 < a := by
      have : (0 : Int) < (a : Int) := hn
      exact_mod_cast this
    have := roundNat_pos a ha
    simp only [roundInt]
    exact_mod_cast this
  | negSucc a => exact absurd hn (by simp [Int.negSucc_lt_zero])

/-! ## The two roundings agree on whole numbers -/

theorem roundHalfEvenDiv_one (x : Nat) : roundHalfEvenDiv x 1 = x := by
  simp [roundHalfEvenDiv, Nat.mod_one]

theorem roundPos_one (a : Nat) : roundPos a 1 = (roundNat a : ℚ) := by
  unfold roundPos roundNat
  by_cases h : a < 2 ^ 53
  · have h1 : ¬ (1 * 2 ^ 53 ≤ a) := by omega
    simp only [h1, h, if_false, if_true, roundHalfEvenDiv_one]
    rw [Rat.mkRat_eq_div]
    push_cast
    have hpos : (2 : ℚ) ^ downShift 1074 a 1 ≠ 0 := by positivity
    field_simp
  · have h1 : 2 ^ 53 ≤ a := by omega
    simp only [h, if_false, one_mul, h1, if_true]

/-- On a whole number the rounding of money amounts is the rounding of quantities. -/
theorem fl_intCast (n : Int) : fl (n : ℚ) = (jsRoundInt n).toNum := by
  unfold fl jsRoundInt
  by_cases h1 : (doubleOverflow : Int) ≤ n
  · have h1q : (doubleOverflow : ℚ) ≤ (n : ℚ) := by exact_mod_cast h1
    simp only [h1, h1q, if_true, JsWhole.toNum]
  · have h1q : ¬ ((doubleOverflow : ℚ) ≤ (n : ℚ)) := by
      intro h
      exact h1 (by exact_mod_cast h)
    by_cases h2 : n ≤ -(doubleOverflow : Int)
    · have h2q : (n : ℚ) ≤ -(doubleOverflow : ℚ) := by exact_mod_cast h2
      simp only [h1, h1q, h2, h2q, if_true, if_false, JsWhole.toNum]
    · have h2q : ¬ ((n : ℚ) ≤ -(doubleOverflow : ℚ)) := by
        intro h
        exact h2 (by exact_mod_cast h)
      simp only [h1, h1q, h2, h2q, if_false, JsWhole.toNum, Rat.num_intCast,
        Rat.den_intCast]
      cases n with
      | ofNat a =>
        by_cases ha : a = 0
        · subst ha
          simp [roundInt, roundNat]
        · have hpos : (0 : ℚ) < ((Int.ofNat a : Int) : ℚ) := by
            have h0 : 0 < a := Nat.pos_of_ne_zero ha
            have h0i : (0 : Int) < Int.ofNat a := Int.ofNat_lt.mpr h0
            exact Int.cast_pos.mpr h0i
          have hne : ((Int.ofNat a : Int) : ℚ) ≠ 0 := ne_of_gt hpos
          simp only [hne, hpos, if_false, if_true, Int.natAbs_ofNat, roundPos_one, roundInt]
          push_cast
          rfl
      | negSucc a =>
        have hneg : ((Int.negSucc a : Int) : ℚ) < 0 := by
          have : Int.negSucc a < 0 := Int.negSucc_lt_zero a
          exact_mod_cast this
        have hne : ((Int.negSucc a : Int) : ℚ) ≠ 0 := ne_of_lt hneg
        have hnpos : ¬ ((0 : ℚ) < ((Int.negSucc a : Int) : ℚ)) := not_lt.mpr (le_of_lt hneg)
        simp only [hne, hnpos, if_false, Int.natAbs_negSucc, roundPos_one, roundInt]
        push_cast
        rfl

/-- Known values of double arithmetic, reproduced by the two roundings: ties go to the
even neighbour (`2 ^ 53 + 1` to `2 ^ 53`, `2 ^ 53 + 3` to `2 ^ 53 + 4`), the largest
double is `2 ^ 1024 - 2 ^ 971` and the midpoint above it is the first number rounded to
an infinity, the smallest positive double is `2 ^ (-1074)`, `0.1 + 0.2` is the double
printed 0.30000000000000004, and opposite infinities add up to `NaN`. -/
theorem rounding_examples :
    jsRoundInt (2 ^ 53 + 1) = .fin (2 ^ 53) ∧
    jsRoundInt (2 ^ 53 + 3) = .fin (2 ^ 53 + 4) ∧
    jsRoundInt (-(2 ^ 53 + 1)) = .fin (-(2 ^ 53)) ∧
    jsRoundInt (2 ^ 1024 - 2 ^ 970 - 1) = .fin (2 ^ 1024 - 2 ^ 971) ∧
    jsRoundInt (2 ^ 1024 - 2 ^ 970) = .posInf ∧
    jsRoundInt (-(2 ^ 1024 - 2 ^ 970)) = .negInf ∧
    fl (2 ^ 53 + 1) = .fin (2 ^ 53) ∧
    fl (2 ^ 1024 - 2 ^ 970 - 1 / 3) = .fin (2 ^ 1024 - 2 ^ 971) ∧
    fl (2 ^ 1024 - 2 ^ 970) = .posInf ∧
    fl (1 / 3) = .fin (6004799503160661 / 18014398509481984) ∧
    fl (-1 / 3) = .fin (-6004799503160661 / 18014398509481984) ∧
    fl (1 / 2 ^ 1074) = .fin (1 / 2 ^ 1074) ∧
    fl (1 / 2 ^ 1075) = .fin 0 ∧
    fl (3 / 2 ^ 1075) = .fin (1 / 2 ^ 1073) ∧
    JsNum.add (fl 0.1) (fl 0.2) = .fin (1351079888211149 / 4503599627370496) ∧
    JsNum.add .posInf .negInf = .nan ∧
    JsNum.add .posInf (.fin 1) = .posInf ∧
    JsNum.add (.fin 1) .negInf = .negInf := by
  refine ⟨by decide!, by decide!, by decide!, by decide!, by decide!, by decide!,
    by decide!, by decide!, by decide!, by decide!, by decide!, by decide!, by decide!,
    by decide!, by decide!, rfl, rfl, rfl⟩

/-! ## C1: adding the same product twice -/

/-- C1, as stated, fails on the quantity: on a fresh browser `Cart.add(case, 2 ^ 53)`
followed by `Cart.add(case, 1)` leaves one item whose `qty` is `2 ^ 53`, the double
nearest to the sum, not `2 ^ 53 + 1`. -/
theorem add_twice_counterexample :
    (9007199254740992 : Int) = 2 ^ 53 ∧
    (∀ i ∈ ([] : List CartItem), i.id ≠ sampleCase.id) ∧
    Cart.get World.fresh = .ok (.array []) ∧
    (Cart.add sampleCase 9007199254740992 World.fresh >>= Cart.add sampleCase 1) =
      .ok { storage := some (JSON.stringify
              [CartItem.ofProduct sampleCase 9007199254740992]),
            badge := .fin 9007199254740992 } ∧
    Cart.get { storage := some (JSON.stringify
                 [CartItem.ofProduct sampleCase 9007199254740992]),
               badge := .fin 9007199254740992 } =
      .ok (.array [CartItem.ofProduct sampleCase 9007199254740992]) ∧
    (CartItem.ofProduct sampleCase 9007199254740992).qty ≠ 9007199254740992 + 1 := by
  refine ⟨by norm_num, by simp, rfl, by decide!, rfl, by decide⟩

/-- C1, amended: in a cart that holds no item with the id of product `A`,
`Cart.add(A, q1)` followed by `Cart.add(A, q2)` succeeds and leaves the previous items,
unchanged and in order, followed by one new item built from `A`: the cart has grown by
one item, and exactly one item carries the id of `A`. Its `qty` is the sum `q1 + q2` as
JavaScript computes it, rounded to the nearest double (and stored as `null`, here 0,
when not finite); it is `q1 + q2` itself whenever that sum is a double, in particular
whenever its magnitude is at most `2 ^ 53`. -/
theorem add_twice_merges (w : World) (items : List CartItem) (A : Product) (q1 q2 : Int)
    (hget : Cart.get w = .ok (.array items))
    (habsent : ∀ i ∈ items, i.id ≠ A.id) :
    ∃ w2 res, (Cart.add A q1 w >>= Cart.add A q2) = .ok w2 ∧
      Cart.get w2 = .ok (.array res) ∧
      res = items ++ [CartItem.ofProduct A ((JsWhole.fin q1).add q2).stored] ∧
      res.filter (fun i => decide (i.id = A.id)) =
        [CartItem.ofProduct A ((JsWhole.fin q1).add q2).stored] ∧
      res.length = items.length + 1 ∧
      res.take items.length = items ∧
      (jsRoundInt (q1 + q2) = .fin (q1 + q2) →
        res = items ++ [CartItem.ofProduct A (q1 + q2)]) ∧
      ((q1 + q2).natAbs ≤ 2 ^ 53 → res = items ++ [CartItem.ofProduct A (q1 + q2)]) := by
  have hrun : (Cart.add A q1 w >>= Cart.add A q2) =
      .ok { storage := some (JSON.stringify
              (items ++ [CartItem.ofProduct A ((JsWhole.fin q1).add q2).stored])),
            badge := badgeCount
              (items ++ [CartItem.ofProduct A ((JsWhole.fin q1).add q2).stored]) } := by
    rw [add_eq_of_get A q1 hget]
    rw [ok_bind, add_eq_of_get A q2 (get_of_badge_update _ _), addItems_of_absent A q1 habsent,
      addItems_append_hit items A q1 q2 habsent]
  have hexact : jsRoundInt (q1 + q2) = .fin (q1 + q2) →
      items ++ [CartItem.ofProduct A ((JsWhole.fin q1).add q2).stored] =
        items ++ [CartItem.ofProduct A (q1 + q2)] := by
    intro h
    simp only [JsWhole.add, h, JsWhole.stored]
  refine ⟨_, items ++ [CartItem.ofProduct A ((JsWhole.fin q1).add q2).stored], hrun, rfl, rfl,
    ?_, ?_, ?_, hexact, fun h => hexact (jsRoundInt_of_safe _ h)⟩
  · rw [List.filter_append]
    have : items.filter (fun i => decide (i.id = A.id)) = [] := by
      rw [List.filter_eq_nil_iff]
      intro i hi
      simpa using habsent i hi
    rw [this]
    simp [CartItem.ofProduct]
  · simp
  · simp

/-- Worked instance of amended C1: a cart holding one cable, to which the case is added
with quantities 1 and 2, leaves the cable followed by the case with `qty = 3`. -/
theorem add_twice_merges_witness :
    ∃ w2 res,
      (Cart.add sampleCase 1 (World.holding [CartItem.ofProduct sampleCable 4]) >>=
        Cart.add sampleCase 2) = .ok w2 ∧
      Cart.get w2 = .ok (.array res) ∧
      res = [CartItem.ofProduct sampleCable 4, CartItem.ofProduct sampleCase 3] ∧
      res.filter (fun i => decide (i.id = sampleCase.id)) =
        [CartItem.ofProduct sampleCase 3] ∧
      res.length = 2 := by
  obtain ⟨w2, res, hrun, hget, _, _, hlen, _, _, hsafe⟩ :=
    add_twice_merges (World.holding [CartItem.ofProduct sampleCable 4])
      [CartItem.ofProduct sampleCable 4] sampleCase 1 2 rfl (by decide)
  have hres : res = [CartItem.ofProduct sampleCable 4, CartItem.ofProduct sampleCase 3] :=
    hsafe (by decide)
  refine ⟨w2, res, hrun, hget, hres, ?_, hlen⟩
  rw [hres]
  decide

/-! ## Invariants over sequences of operations -/

theorem foldl_add_exact (items : List CartItem) (a : Int)
    (h : ∀ k, k ≤ items.length →
      jsRoundInt (a + ((items.take k).map (fun i => i.qty)).sum) =
        .fin (a + ((items.take k).map (fun i => i.qty)).sum)) :
    items.foldl (fun s i => JsWhole.add s i.qty) (.fin a) =
      .fin (a + (items.map (fun i => i.qty)).sum) := by
  induction items generalizing a with
  | nil => simp
  | cons x rest ih =>
    have h1 := h 1 (by simp)
    simp only [List.take_succ_cons, List.take_zero, List.map_cons, List.map_nil,
      List.sum_cons, List.sum_nil, add_zero] at h1
    rw [List.foldl_cons, show (JsWhole.fin a).add x.qty = jsRoundInt (a + x.qty) from rfl,
      h1, List.map_cons, List.sum_cons, ih (a + x.qty), add_assoc]
    intro k hk
    have := h (k + 1) (by simpa using hk)
    simpa [add_assoc] using this

/-- The count is the exact sum of the quantities when every partial sum, taken from
the left, is a double. -/
theorem badgeCount_exact (items : List CartItem)
    (h : ∀ k, k ≤ items.length →
      jsRoundInt ((items.take k).map (fun i => i.qty)).sum =
        .fin ((items.take k).map (fun i => i.qty)).sum) :
    badgeCount items = .fin (items.map (fun i => i.qty)).sum := by
  have := foldl_add_exact items 0 (by simpa using h)
  simpa [badgeCount] using this

theorem foldl_add_safe (items : List CartItem) (a : Int)
    (h : a.natAbs + (items.map (fun i => i.qty.natAbs)).sum ≤ 2 ^ 53) :
    items.foldl (fun s i => JsWhole.add s i.qty) (.fin a) =
      .fin (a + (items.map (fun i => i.qty)).sum) := by
  induction items generalizing a with
  | nil => simp
  | cons x rest ih =>
    simp only [List.map_cons, List.sum_cons] at h
    have hstep : (a + x.qty).natAbs ≤ a.natAbs + x.qty.natAbs := Int.natAbs_add_le _ _
    have hexact : jsRoundInt (a + x.qty) = .fin (a + x.qty) :=
      jsRoundInt_of_safe _ (by omega)
    rw [List.foldl_cons, show (JsWhole.fin a).add x.qty = jsRoundInt (a + x.qty) from rfl,
      hexact, List.map_cons, List.sum_cons, ih (a + x.qty) (by omega), add_assoc]

/-- The count is the exact sum of the quantities when their magnitudes total at most
`2 ^ 53`. -/
theorem badgeCount_of_safe (items : List CartItem)
    (h : (items.map (fun i => i.qty.natAbs)).sum ≤ 2 ^ 53) :
    badgeCount items = .fin (items.map (fun i => i.qty)).sum := by
  have := foldl_add_safe items 0 (by simpa using h)
  simpa [badgeCount] using this

theorem bumpFound_ids (id : String) (qty : Int) (items : List CartItem) :
    (Cart.bumpFound id qty items).map (fun i => i.id) = items.map (fun i => i.id) := by
  induction items with
  | nil => rfl
  | cons x rest ih =>
    unfold Cart.bumpFound
    split
    · rfl
    · simp [ih]

theorem absent_of_find_none {items : List CartItem} {id : String}
    (h : items.find? (fun i => decide (i.id = id)) = none) :
    ∀ i ∈ items, i.id ≠ id := by
  intro i hi
  rw [List.find?_eq_none] at h
  simpa using h i hi

theorem addItems_ids_nodup (product : Product) (qty : Int) (items : List CartItem)
    (h : (items.map (fun i => i.id)).Nodup) :
    ((Cart.addItems product qty items).map (fun i => i.id)).Nodup := by
  unfold Cart.addItems
  split
  · rw [bumpFound_ids]
    exact h
  · rename_i hnone
    have habsent := absent_of_find_none hnone
    rw [List.map_append, List.nodup_append]
    refine ⟨h, by simp, ?_⟩
    intro a ha hb
    simp only [List.map_cons, List.map_nil, List.mem_singleton] at hb
    obtain ⟨i, hi, rfl⟩ := List.mem_map.mp ha
    exact habsent i hi hb

theorem updateItems_ids_sublist (id : String) (qty : Int) (items : List CartItem) :
    ((Cart.updateItems id qty items).map (fun i => i.id)).Sublist
      (items.map (fun i => i.id)) := by
  unfold Cart.updateItems
  have hmap : (items.map (fun i => if i.id = id then { i with qty := qty } else i)).map
      (fun i => i.id) = items.map (fun i => i.id) := by
    rw [List.map_map]
    apply List.map_congr_left
    intro i _
    simp only [Function.comp]
    split <;> rfl
  rw [← hmap]
  exact (List.filter_sublist _).map _

theorem removeItems_ids_sublist (id : String) (items : List CartItem) :
    ((Cart.removeItems id items).map (fun i => i.id)).Sublist
      (items.map (fun i => i.id)) :=
  (List.filter_sublist _).map _

theorem stored_add_pos (x qty : Int) (hx : 0 < x) (hq : 1 ≤ qty)
    (hfin : ((JsWhole.fin x).add qty).isFinite = true) :
    0 < ((JsWhole.fin x).add qty).stored := by
  simp only [JsWhole.add, jsRoundInt] at hfin ⊢
  split
  · rename_i h
    simp [h, JsWhole.isFinite] at hfin
  · rename_i h1
    split
    · rename_i h2
      simp [h1, h2, JsWhole.isFinite] at hfin
    · exact roundInt_pos _ (by omega)

theorem bumpFound_pos (id : String) (qty : Int) (items : List CartItem) (hq : 1 ≤ qty)
    (hfin : ∀ found, items.find? (fun i => decide (i.id = id)) = some found →
      ((JsWhole.fin found.qty).add qty).isFinite = true)
    (h : ∀ i ∈ items, 0 < i.qty) :
    ∀ i ∈ Cart.bumpFound id qty items, 0 < i.qty := by
  induction items with
  | nil => intro i hi; simp [Cart.bumpFound] at hi
  | cons x rest ih =>
    have hx : 0 < x.qty := h x (List.mem_cons_self _ _)
    have hrest : ∀ i ∈ rest, 0 < i.qty := fun i hi => h i (List.mem_cons_of_mem _ hi)
    intro i hi
    unfold Cart.bumpFound at hi
    split at hi
    · rename_i hid
      rcases List.mem_cons.mp hi with rfl | hi
      · exact stored_add_pos x.qty qty hx hq (hfin x (by simp [List.find?_cons, hid]))
      · exact hrest i hi
    · rename_i hid
      rcases List.mem_cons.mp hi with rfl | hi
      · exact hx
      · refine ih ?_ hrest i hi
        intro found hfound
        exact hfin found (by simpa [List.find?_cons, hid] using hfound)

theorem addItems_pos (product : Product) (qty : Int) (items : List CartItem)
    (hq : 1 ≤ qty) (hfin : (CartOp.add product qty).keepsFinite items = true)
    (h : ∀ i ∈ items, 0 < i.qty) :
    ∀ i ∈ Cart.addItems product qty items, 0 < i.qty := by
  unfold Cart.addItems
  split
  · rename_i found hfound
    refine bumpFound_pos _ _ _ hq ?_ h
    intro f hf
    rw [hfound] at hf
    cases hf
    simpa [CartOp.keepsFinite, hfound] using hfin
  · intro i hi
    rcases List.mem_append.mp hi with hi | hi
    · exact h i hi
    · rw [List.mem_singleton] at hi
      subst hi
      show 0 < qty
      omega

theorem updateItems_pos (id : String) (qty : Int) (items : List CartItem) :
    ∀ i ∈ Cart.updateItems id qty items, 0 < i.qty := by
  intro i hi
  unfold Cart.updateItems at hi
  simpa using (List.mem_filter.mp hi).2

theorem removeItems_pos (id : String) (items : List CartItem)
    (h : ∀ i ∈ items, 0 < i.qty) :
    ∀ i ∈ Cart.removeItems id items, 0 < i.qty :=
  fun i hi => h i (List.mem_filter.mp hi).1

/-- A property of the stored array that every permitted call preserves holds after
every run of permitted calls, and every such run succeeds; after a non-empty run the
badge shows the count of the stored array. -/
theorem runOps_preserves (P : List CartItem → Prop) (Q : CartOp → Prop)
    (hadd : ∀ product qty items, Q (.add product qty) → P items →
      P (Cart.addItems product qty items))
    (hupdate : ∀ id qty items, P items → P (Cart.updateItems id qty items))
    (hremove : ∀ id items, P items → P (Cart.removeItems id items))
    (ops : List CartOp) (w : World) (items : List CartItem)
    (hget : Cart.get w = .ok (.array items)) (hP : P items) (hQ : ∀ op ∈ ops, Q op) :
    ∃ w1 items1, runOps ops w = .ok w1 ∧ Cart.get w1 = .ok (.array items1) ∧ P items1 ∧
      (ops ≠ [] → w1.badge = badgeCount items1) := by
  induction ops generalizing w items with
  | nil => exact ⟨w, items, rfl, hget, hP, fun h => absurd rfl h⟩
  | cons op rest ih =>
    have hQop : Q op := hQ op (List.mem_cons_self _ _)
    have hQrest : ∀ o ∈ rest, Q o := fun o ho => hQ o (List.mem_cons_of_mem _ ho)
    have hstep : ∃ next, op.apply w =
        .ok { storage := some (JSON.stringify next), badge := badgeCount next } ∧
        P next := by
      cases op with
      | add product qty =>
        exact ⟨_, add_eq_of_get product qty hget, hadd product qty items hQop hP⟩
      | update id qty => exact ⟨_, update_eq_of_get id qty hget, hupdate id qty items hP⟩
      | remove id => exact ⟨_, remove_eq_of_get id hget, hremove id items hP⟩
    obtain ⟨next, happly, hnext⟩ := hstep
    obtain ⟨w1, items1, hrun, hget1, hP1, hbadge⟩ :=
      ih _ next (get_of_badge_update next _) hnext hQrest
    refine ⟨w1, items1, ?_, hget1, hP1, ?_⟩
    · unfold runOps
      rw [happly]
      exact hrun
    · intro _
      by_cases hrest : rest = []
      · subst hrest
        simp only [runOps, Except.ok.injEq] at hrun
        subst hrun
        have : items1 = next := by
          have := hget1
          rw [get_of_badge_update] at this
          simpa using this.symm
        subst this
        rfl
      · exact hbadge hrest

/-- Positive quantities stay positive along a run whose adds are given `qty ≥ 1` and
write finite quantities. -/
theorem runOps_positive (ops : List CartOp) (w : World) (items : List CartItem)
    (hget : Cart.get w = .ok (.array items)) (hpos : ∀ i ∈ items, 0 < i.qty)
    (hadds : ∀ op ∈ ops, op.addsAtLeastOne) (hfin : runKeepsFinite ops w = true)
    (w1 : World) (items1 : List CartItem) (hrun : runOps ops w = .ok w1)
    (hget1 : Cart.get w1 = .ok (.array items1)) : ∀ i ∈ items1, 0 < i.qty := by
  induction ops generalizing w items with
  | nil =>
    simp only [runOps, Except.ok.injEq] at hrun
    subst hrun
    rw [hget] at hget1
    simp only [Except.ok.injEq, JsValue.array.injEq] at hget1
    subst hget1
    exact hpos
  | cons op rest ih =>
    have hop : op.addsAtLeastOne := hadds op (List.mem_cons_self _ _)
    have hrest : ∀ o ∈ rest, o.addsAtLeastOne :=
      fun o ho => hadds o (List.mem_cons_of_mem _ ho)
    have hstep : ∃ next, op.apply w =
        .ok { storage := some (JSON.stringify next), badge := badgeCount next } ∧
        (op.keepsFinite items = true → ∀ i ∈ next, 0 < i.qty) := by
      cases op with
      | add product qty =>
        exact ⟨_, add_eq_of_get product qty hget,
          fun hk => addItems_pos product qty items hop hk hpos⟩
      | update id qty =>
        exact ⟨_, update_eq_of_get id qty hget, fun _ => updateItems_pos id qty items⟩
      | remove id =>
        exact ⟨_, remove_eq_of_get id hget, fun _ => removeItems_pos id items hpos⟩
    obtain ⟨next, happly, hnext⟩ := hstep
    simp only [runKeepsFinite, hget, happly, Bool.and_eq_true] at hfin
    simp only [runOps, happly] at hrun
    exact ih _ next (get_of_badge_update next _) (hnext hfin.1) hrest hfin.2 hrun

theorem stored_add_nonneg (x qty : Int) (hx : 0 ≤ x) (hq : 1 ≤ qty) :
    0 ≤ ((JsWhole.fin x).add qty).stored := by
  simp only [JsWhole.add, jsRoundInt]
  split
  · exact le_refl _
  · split
    · exact le_refl _
    · exact le_of_lt (roundInt_pos _ (by omega))

theorem bumpFound_nonneg (id : String) (qty : Int) (items : List CartItem) (hq : 1 ≤ qty)
    (h : ∀ i ∈ items, 0 ≤ i.qty) :
    ∀ i ∈ Cart.bumpFound id qty items, 0 ≤ i.qty := by
  induction items with
  | nil => intro i hi; simp [Cart.bumpFound] at hi
  | cons x rest ih =>
    have hx : 0 ≤ x.qty := h x (List.mem_cons_self _ _)
    have hrest : ∀ i ∈ rest, 0 ≤ i.qty := fun i hi => h i (List.mem_cons_of_mem _ hi)
    intro i hi
    unfold Cart.bumpFound at hi
    split at hi
    · rcases List.mem_cons.mp hi with rfl | hi
      · exact stored_add_nonneg x.qty qty hx hq
      · exact hrest i hi
    · rcases List.mem_cons.mp hi with rfl | hi
      · exact hx
      · exact ih hrest i hi

theorem addItems_nonneg (product : Product) (qty : Int) (items : List CartItem)
    (hq : 1 ≤ qty) (h : ∀ i ∈ items, 0 ≤ i.qty) :
    ∀ i ∈ Cart.addItems product qty items, 0 ≤ i.qty := by
  unfold Cart.addItems
  split
  · exact bumpFound_nonneg _ _ _ hq h
  · intro i hi
    rcases List.mem_append.mp hi with hi | hi
    · exact h i hi
    · rw [List.mem_singleton] at hi
      subst hi
      show 0 ≤ qty
      omega

/-- The result of a run is determined by the run: a property that every permitted
call preserves holds of the cart read back after the run. -/
theorem runOps_invariant (P : List CartItem → Prop) (Q : CartOp → Prop)
    (hadd : ∀ product qty items, Q (.add product qty) → P items →
      P (Cart.addItems product qty items))
    (hupdate : ∀ id qty items, P items → P (Cart.updateItems id qty items))
    (hremove : ∀ id items, P items → P (Cart.removeItems id items))
    (ops : List CartOp) (w : World) (items : List CartItem)
    (hget : Cart.get w = .ok (.array items)) (hP : P items) (hQ : ∀ op ∈ ops, Q op)
    (w1 : World) (items1 : List CartItem) (hrun : runOps ops w = .ok w1)
    (hget1 : Cart.get w1 = .ok (.array items1)) : P items1 := by
  obtain ⟨w2, items2, hrun2, hget2, hP2, _⟩ :=
    runOps_preserves P Q hadd hupdate hremove ops w items hget hP hQ
  rw [hrun] at hrun2
  cases hrun2
  rw [hget1] at hget2
  cases hget2
  exact hP2

theorem updateCartBadge_of_get {w : World} {items : List CartItem}
    (h : Cart.get w = .ok (.array items)) :
    updateCartBadge w = .ok { w with badge := badgeCount items } := by
  unfold updateCartBadge
  rw [h]
  rfl

/-! ## C2: at most one item per id -/

/-- C2: starting from an empty cart, every finite sequence of `Cart.add`,
`Cart.update` and `Cart.remove` calls, whatever their arguments, runs to completion
and leaves a cart whose items have pairwise distinct ids. -/
theorem ids_distinct_after_ops (ops : List CartOp) (w : World)
    (hempty : Cart.get w = .ok (.array [])) :
    ∃ w1 items, runOps ops w = .ok w1 ∧ Cart.get w1 = .ok (.array items) ∧
      (items.map (fun i => i.id)).Nodup := by
  obtain ⟨w1, items, hrun, hget, hnodup, _⟩ :=
    runOps_preserves (fun items => (items.map (fun i => i.id)).Nodup) (fun _ => True)
      (fun product qty items _ h => addItems_ids_nodup product qty items h)
      (fun id qty items h => (updateItems_ids_sublist id qty items).nodup h)
      (fun id items h => (removeItems_ids_sublist id items).nodup h)
      ops w [] hempty List.nodup_nil (fun _ _ => trivial)
  exact ⟨w1, items, hrun, hget, hnodup⟩

/-- Worked instance of C2: five calls on a fresh browser, two of them adding the same
product, one with a negative quantity. -/
theorem ids_distinct_after_ops_witness :
    ∃ w1 items,
      runOps [.add sampleCase 1, .add sampleCable (-2), .add sampleCase 3,
        .update "p2" 5, .remove "p9"] World.fresh = .ok w1 ∧
      Cart.get w1 = .ok (.array items) ∧ (items.map (fun i => i.id)).Nodup :=
  ids_distinct_after_ops _ World.fresh rfl

/-! ## C3: quantities stay positive, the badge is the sum of the quantities -/

/-- C3, as stated, fails in three ways, each on a fresh browser. The single call
`Cart.add(case, 0)` stores an item whose `qty` is `0`. The calls
`Cart.add(case, 2 ^ 1023)` twice, both with `qty ≥ 1`, make `found.qty += qty` an
infinity, which is stored as `null` (here 0), not a positive quantity. The calls
`Cart.add(case, 2 ^ 53)` and `Cart.add(cable, 1)`, both with `qty ≥ 1` and finite
results, leave the quantities `2 ^ 53` and `1`, and the badge count is `2 ^ 53`, the
double nearest to their sum, not the sum `2 ^ 53 + 1`. -/
theorem qty_positive_counterexample :
    (runOps [.add sampleCase 0] World.fresh =
        .ok { storage := some (JSON.stringify [CartItem.ofProduct sampleCase 0]),
              badge := 0 } ∧
      ¬ (∀ i ∈ [CartItem.ofProduct sampleCase 0], 0 < i.qty)) ∧
    ((∀ op ∈ [CartOp.add sampleCase (2 ^ 1023), .add sampleCase (2 ^ 1023)],
        op.addsAtLeastOne) ∧
      (JsWhole.fin (2 ^ 1023)).add (2 ^ 1023) = .posInf ∧
      runOps [.add sampleCase (2 ^ 1023), .add sampleCase (2 ^ 1023)] World.fresh =
        .ok { storage := some (JSON.stringify [CartItem.ofProduct sampleCase 0]),
              badge := 0 } ∧
      ¬ (∀ i ∈ [CartItem.ofProduct sampleCase 0], 0 < i.qty)) ∧
    ((∀ op ∈ [CartOp.add sampleCase 9007199254740992, .add sampleCable 1],
        op.addsAtLeastOne) ∧
      runKeepsFinite [.add sampleCase 9007199254740992, .add sampleCable 1]
        World.fresh = true ∧
      runOps [.add sampleCase 9007199254740992, .add sampleCable 1] World.fresh =
        .ok { storage := some (JSON.stringify
                [CartItem.ofProduct sampleCase 9007199254740992,
                 CartItem.ofProduct sampleCable 1]),
              badge := .fin 9007199254740992 } ∧
      JsWhole.fin (([CartItem.ofProduct sampleCase 9007199254740992,
          CartItem.ofProduct sampleCable 1].map (fun i => i.qty)).sum) =
        .fin 9007199254740993 ∧
      (JsWhole.fin 9007199254740992 : JsWhole) ≠ .fin 9007199254740993) := by
  refine ⟨⟨by decide!, by decide⟩, ⟨by decide!, by decide!, by decide!, by decide⟩,
    ⟨by decide, by decide!, by decide!, by decide, by decide⟩⟩

/-- C3, amended: starting from an empty cart, every sequence of `Cart.add`,
`Cart.update` and `Cart.remove` calls runs to completion. If each `Cart.add` of the
sequence is given `qty ≥ 1` and no `found.qty += qty` of the run is an infinity, every
item of the resulting cart has `qty > 0`; if each `Cart.add` is given `qty ≥ 1`, every
item has `qty > 0` or the `null` (here 0) left by an overflow. Whatever the sequence,
the count that `updateCartBadge` computes and displays is the sum of the `qty` fields
of the stored items taken from left to right in double arithmetic, which after a
non-empty sequence is already what the badge shows; it is the exact sum of the `qty`
fields whenever every partial sum from the left is a double, in particular whenever
the magnitudes of the quantities total at most `2 ^ 53`. -/
theorem qty_positive_after_ops (ops : List CartOp) (w : World)
    (hempty : Cart.get w = .ok (.array [])) :
    ∃ w1 items, runOps ops w = .ok w1 ∧ Cart.get w1 = .ok (.array items) ∧
      ((∀ op ∈ ops, op.addsAtLeastOne) → runKeepsFinite ops w = true →
        ∀ i ∈ items, 0 < i.qty) ∧
      ((∀ op ∈ ops, op.addsAtLeastOne) → ∀ i ∈ items, 0 < i.qty ∨ i.qty = 0) ∧
      updateCartBadge w1 = .ok { w1 with badge := badgeCount items } ∧
      (ops ≠ [] → w1.badge = badgeCount items) ∧
      ((∀ k, k ≤ items.length →
          jsRoundInt ((items.take k).map (fun i => i.qty)).sum =
            .fin ((items.take k).map (fun i => i.qty)).sum) →
        badgeCount items = .fin (items.map (fun i => i.qty)).sum) ∧
      ((items.map (fun i => i.qty.natAbs)).sum ≤ 2 ^ 53 →
        badgeCount items = .fin (items.map (fun i => i.qty)).sum) := by
  obtain ⟨w1, items, hrun, hget, _, hbadge⟩ :=
    runOps_preserves (fun _ => True) (fun _ => True)
      (fun _ _ _ _ _ => trivial) (fun _ _ _ _ => trivial) (fun _ _ _ => trivial)
      ops w [] hempty trivial (fun _ _ => trivial)
  refine ⟨w1, items, hrun, hget, ?_, ?_, updateCartBadge_of_get hget, hbadge,
    badgeCount_exact items, badgeCount_of_safe items⟩
  · intro hadds hfin
    exact runOps_positive ops w [] hempty (fun _ h => absurd h (List.not_mem_nil _))
      hadds hfin w1 items hrun hget
  · intro hadds i hi
    have hnonneg : 0 ≤ i.qty :=
      runOps_invariant (fun items => ∀ i ∈ items, 0 ≤ i.qty) CartOp.addsAtLeastOne
        (fun product qty items hq h => addItems_nonneg product qty items hq h)
        (fun id qty items _ i hi => le_of_lt (updateItems_pos id qty items i hi))
        (fun id items h i hi => h i (List.mem_filter.mp hi).1)
        ops w [] hempty (fun _ h => absurd h (List.not_mem_nil _)) hadds
        w1 items hrun hget i hi
    omega

/-- Worked instance of amended C3: five calls on a fresh browser, one of them an
update to a negative quantity, leave the case with `qty = 4`; the quantity is
positive and the badge shows 4, the exact sum. -/
theorem qty_positive_after_ops_witness :
    ∃ w1 items,
      runOps [.add sampleCase 1, .add sampleCable 2, .add sampleCase 3,
        .update "p2" (-5), .remove "p9"] World.fresh = .ok w1 ∧
      Cart.get w1 = .ok (.array items) ∧
      items = [CartItem.ofProduct sampleCase 4] ∧
      (∀ i ∈ items, 0 < i.qty) ∧
      w1.badge = badgeCount items ∧
      badgeCount items = .fin (items.map (fun i => i.qty)).sum ∧
      w1.badge = 4 := by
  obtain ⟨w1, items, hrun, hget, hpos, _, _, hbadge, _, hsafe⟩ :=
    qty_positive_after_ops [.add sampleCase 1, .add sampleCable 2, .add sampleCase 3,
      .update "p2" (-5), .remove "p9"] World.fresh rfl
  have heval : runOps [.add sampleCase 1, .add sampleCable 2, .add sampleCase 3,
      .update "p2" (-5), .remove "p9"] World.fresh =
      .ok { storage := some (JSON.stringify [CartItem.ofProduct sampleCase 4]),
            badge := 4 } := by decide!
  rw [heval] at hrun
  cases hrun
  have hitems : items = [CartItem.ofProduct sampleCase 4] := by
    rw [get_of_badge_update] at hget
    simpa using hget.symm
  subst hitems
  exact ⟨_, _, heval, rfl, rfl, hpos (by decide) (by decide!), hbadge (by simp),
    hsafe (by decide), rfl⟩

/-! ## C6: reading the stored cart -/

/-- C6, evaluated on the code: `Cart.get` returns the empty array when nothing is
stored under the key and when the stored string is empty, but a stored non-empty text
that is not JSON makes it throw a `SyntaxError`, and a stored JSON text of a value that
is not an array is returned as that value, not as an empty array. -/
theorem get_on_stored_text (b : JsWhole) :
    Cart.get { storage := none, badge := b } = .ok (.array []) ∧
    Cart.get { storage := some .empty, badge := b } = .ok (.array []) ∧
    Cart.get { storage := some .notJson, badge := b } = .error .syntaxError ∧
    Cart.get { storage := some (.json .nonArray), badge := b } = .ok .nonArray ∧
    updateCartBadge { storage := some .notJson, badge := b } = .error .syntaxError :=
  ⟨rfl, rfl, rfl, rfl, rfl⟩

/-! ## C7: `Cart.remove` -/

/-- C7: on every cart, `Cart.remove(id)` succeeds and leaves exactly the previous items
whose id differs from `id`, unchanged and in their original order: the result is the
previous array filtered by `i.id ≠ id`, it is a sublist of the previous array that
holds no item with that id and every item with another id, and when no item has that
id it is the previous array itself. -/
theorem remove_spec (w : World) (items : List CartItem) (id : String)
    (hget : Cart.get w = .ok (.array items)) :
    ∃ w1 res, Cart.remove id w = .ok w1 ∧ Cart.get w1 = .ok (.array res) ∧
      res = items.filter (fun i => decide (i.id ≠ id)) ∧
      res.Sublist items ∧
      (∀ i, i ∈ res ↔ i ∈ items ∧ i.id ≠ id) ∧
      ((∀ i ∈ items, i.id ≠ id) → res = items) := by
  refine ⟨_, Cart.removeItems id items, remove_eq_of_get id hget, rfl, rfl,
    List.filter_sublist _, ?_, ?_⟩
  · intro i
    simp [Cart.removeItems, List.mem_filter]
  · intro h
    unfold Cart.removeItems
    rw [List.filter_eq_self]
    intro i hi
    simpa using h i hi

/-- Worked instance of C7: removing the case from a cart of a case and a cable. -/
theorem remove_spec_witness :
    ∃ w1 res,
      Cart.remove "p1" (World.holding
        [CartItem.ofProduct sampleCase 1, CartItem.ofProduct sampleCable 2]) = .ok w1 ∧
      Cart.get w1 = .ok (.array res) ∧
      res = [CartItem.ofProduct sampleCase 1, CartItem.ofProduct sampleCable 2].filter
        (fun i => decide (i.id ≠ "p1")) ∧
      res.Sublist [CartItem.ofProduct sampleCase 1, CartItem.ofProduct sampleCable 2] ∧
      (∀ i, i ∈ res ↔
        i ∈ [CartItem.ofProduct sampleCase 1, CartItem.ofProduct sampleCable 2] ∧
          i.id ≠ "p1") ∧
      ((∀ i ∈ [CartItem.ofProduct sampleCase 1, CartItem.ofProduct sampleCable 2],
          i.id ≠ "p1") →
        res = [CartItem.ofProduct sampleCase 1, CartItem.ofProduct sampleCable 2]) :=
  remove_spec _ _ "p1" rfl

/-! ## C10: `Cart.clear` -/

/-- C10: whatever the storage slot holds (nothing, an empty string, text that is not
JSON, any JSON value), `Cart.clear()` succeeds, a following `Cart.get()` returns the
empty array, and the badge count computed by `updateCartBadge` during the clear, and
again by any later call, is 0. -/
theorem clear_then_get (w : World) :
    ∃ w1, Cart.clear w = .ok w1 ∧ Cart.get w1 = .ok (.array []) ∧ w1.badge = 0 ∧
      w1.storage = none ∧ updateCartBadge w1 = .ok w1 :=
  ⟨{ storage := none, badge := 0 }, rfl, rfl, rfl, rfl, rfl⟩

/-! ## C4 and C5: `Cart.update` -/

theorem updateItems_of_pos (id : String) (qty : Int) (items : List CartItem)
    (hq : 0 < qty) (hpos : ∀ i ∈ items, 0 < i.qty) :
    Cart.updateItems id qty items =
      items.map (fun i => if i.id = id then { i with qty := qty } else i) := by
  unfold Cart.updateItems
  rw [List.filter_eq_self]
  intro i hi
  obtain ⟨j, hj, rfl⟩ := List.mem_map.mp hi
  by_cases hid : j.id = id
  · simp [hid, hq]
  · simpa [hid] using hpos j hj

theorem updateItems_nonpos_absent (id : String) (qty : Int) (items : List CartItem)
    (hq : qty ≤ 0) : ∀ i ∈ Cart.updateItems id qty items, i.id ≠ id := by
  intro i hi
  unfold Cart.updateItems at hi
  obtain ⟨hmem, hkeep⟩ := List.mem_filter.mp hi
  obtain ⟨j, _, rfl⟩ := List.mem_map.mp hmem
  by_cases hid : j.id = id
  · simp only [hid, if_true, gt_iff_lt, decide_eq_true_eq] at hkeep
    omega
  · simp [hid]

theorem updateItems_of_absent (id : String) (qty : Int) (items : List CartItem)
    (hpos : ∀ i ∈ items, 0 < i.qty) (habsent : ∀ i ∈ items, i.id ≠ id) :
    Cart.updateItems id qty items = items := by
  unfold Cart.updateItems
  have hmap : items.map (fun i => if i.id = id then { i with qty := qty } else i) =
      items := by
    conv_rhs => rw [← List.map_id items]
    apply List.map_congr_left
    intro i hi
    simp [habsent i hi]
  rw [hmap, List.filter_eq_self]
  intro i hi
  simpa using hpos i hi

theorem updateItems_append (id : String) (qty : Int) (pre post : List CartItem) :
    Cart.updateItems id qty (pre ++ post) =
      Cart.updateItems id qty pre ++ Cart.updateItems id qty post := by
  simp [Cart.updateItems]

theorem updateItems_cons_hit (id : String) (qty : Int) (i : CartItem)
    (post : List CartItem) (hid : i.id = id) (hq : 0 < qty) :
    Cart.updateItems id qty (i :: post) =
      { i with qty := qty } :: Cart.updateItems id qty post := by
  simp [Cart.updateItems, hid, hq]

theorem updateItems_length (id : String) (qty : Int) (items : List CartItem)
    (hq : 0 < qty) :
    (Cart.updateItems id qty items).length =
      (items.filter (fun j => decide (j.id = id ∨ 0 < j.qty))).length := by
  unfold Cart.updateItems
  rw [List.filter_map, List.length_map]
  congr 1
  apply List.filter_congr
  intro j _
  by_cases hid : j.id = id
  · simp [hid, hq]
  · simp [hid]

theorem updateItems_at (id : String) (qty : Int) (pre post : List CartItem)
    (i : CartItem) (hid : i.id = id) (hq : 0 < qty) :
    (Cart.updateItems id qty (pre ++ i :: post))[(pre.filter
        (fun j => decide (j.id = id ∨ 0 < j.qty))).length]? =
      some { i with qty := qty } := by
  rw [updateItems_append, updateItems_cons_hit id qty i _ hid hq,
    ← updateItems_length id qty _ hq, List.getElem?_append_right (le_refl _)]
  simp

theorem split_at_index (items : List CartItem) (k : Nat) (i : CartItem)
    (h : items[k]? = some i) :
    items = items.take k ++ i :: items.drop (k + 1) ∧ (items.take k).length = k := by
  obtain ⟨hk, hi⟩ := List.getElem?_eq_some.mp h
  refine ⟨?_, by simp [List.length_take]; omega⟩
  rw [← hi, ← List.drop_eq_getElem_cons hk, List.take_append_drop]

/-- C4, as stated, fails in its second half. From a fresh browser, `Cart.add(case, 0)`
and `Cart.add(cable, 4)` leave the cart `[case × 0, cable × 4]`, with the cable (id
`p2`) at position 1. `Cart.update('p2', 5)`, with `5 > 0`, drops the case, whose `qty`
is not positive, and the cable, now with `qty = 5`, is at position 0 while position 1
is empty. -/
theorem update_position_counterexample :
    runOps [.add sampleCase 0, .add sampleCable 4] World.fresh =
      .ok { storage := some (JSON.stringify
              [CartItem.ofProduct sampleCase 0, CartItem.ofProduct sampleCable 4]),
            badge := 4 } ∧
    [CartItem.ofProduct sampleCase 0, CartItem.ofProduct sampleCable 4][1]? =
      some (CartItem.ofProduct sampleCable 4) ∧
    (CartItem.ofProduct sampleCable 4).id = "p2" ∧
    Cart.update "p2" 5
        { storage := some (JSON.stringify
            [CartItem.ofProduct sampleCase 0, CartItem.ofProduct sampleCable 4]),
          badge := 4 } =
      .ok { storage := some (JSON.stringify [CartItem.ofProduct sampleCable 5]),
            badge := 5 } ∧
    Cart.get { storage := some (JSON.stringify [CartItem.ofProduct sampleCable 5]),
               badge := 5 } = .ok (.array [CartItem.ofProduct sampleCable 5]) ∧
    [CartItem.ofProduct sampleCable 5][1]? = none ∧
    [CartItem.ofProduct sampleCable 5][0]? = some (CartItem.ofProduct sampleCable 5) :=
  ⟨by decide!, rfl, rfl, by decide!, rfl, rfl, rfl⟩

/-- C4, amended: on every cart `Cart.update(id, qty)` succeeds; when `qty ≤ 0` the
resulting cart holds no item with that id; when `qty > 0`, an item of the cart with
that id is still present with `qty` set to the given value, preceded by exactly the
earlier items that have that id or a `qty > 0`, so that it is at the same position
whenever every earlier item with another id has `qty > 0`. -/
theorem update_spec (w : World) (items : List CartItem) (id : String) (qty : Int)
    (hget : Cart.get w = .ok (.array items)) :
    ∃ w1 res, Cart.update id qty w = .ok w1 ∧ Cart.get w1 = .ok (.array res) ∧
      (qty ≤ 0 → ∀ i ∈ res, i.id ≠ id) ∧
      (0 < qty → ∀ (k : Nat) (i : CartItem), items[k]? = some i → i.id = id →
        res[((items.take k).filter
            (fun j => decide (j.id = id ∨ 0 < j.qty))).length]? =
          some { i with qty := qty } ∧
        ((∀ j ∈ items.take k, j.id ≠ id → 0 < j.qty) →
          res[k]? = some { i with qty := qty })) := by
  refine ⟨_, Cart.updateItems id qty items, update_eq_of_get id qty hget, rfl, ?_, ?_⟩
  · exact updateItems_nonpos_absent id qty items
  · intro hq k i hk hid
    obtain ⟨hsplit, hlen⟩ := split_at_index items k i hk
    have hat := updateItems_at id qty (items.take k) (items.drop (k + 1)) i hid hq
    rw [← hsplit] at hat
    refine ⟨hat, ?_⟩
    intro hearlier
    have hall : (items.take k).filter (fun j => decide (j.id = id ∨ 0 < j.qty)) =
        items.take k := by
      rw [List.filter_eq_self]
      intro j hj
      by_cases hjid : j.id = id
      · simp [hjid]
      · simpa [hjid] using hearlier j hj hjid
    rw [hall, hlen] at hat
    exact hat

/-- Worked instance of amended C4. On the cart `[case × 1, cable × 4]` an update of the
cable to 5 keeps it at position 1 and an update of the cable to 0 removes it; on the
cart `[cable × 0]` an update of the cable to 5 keeps it at position 0 with `qty = 5`. -/
theorem update_spec_witness :
    (∃ w1 res, Cart.update "p2" 5 (World.holding
        [CartItem.ofProduct sampleCase 1, CartItem.ofProduct sampleCable 4]) = .ok w1 ∧
      Cart.get w1 = .ok (.array res) ∧
      res[1]? = some (CartItem.ofProduct sampleCable 5)) ∧
    (∃ w1 res, Cart.update "p2" 0 (World.holding
        [CartItem.ofProduct sampleCase 1, CartItem.ofProduct sampleCable 4]) = .ok w1 ∧
      Cart.get w1 = .ok (.array res) ∧ ∀ i ∈ res, i.id ≠ "p2") ∧
    (∃ w1 res, Cart.update "p2" 5 (World.holding
        [CartItem.ofProduct sampleCable 0]) = .ok w1 ∧
      Cart.get w1 = .ok (.array res) ∧
      res[0]? = some (CartItem.ofProduct sampleCable 5)) := by
  refine ⟨?_, ?_, ?_⟩
  · obtain ⟨w1, res, hrun, hget, _, hpos⟩ :=
      update_spec (World.holding
        [CartItem.ofProduct sampleCase 1, CartItem.ofProduct sampleCable 4])
        [CartItem.ofProduct sampleCase 1, CartItem.ofProduct sampleCable 4] "p2" 5 rfl
    exact ⟨w1, res, hrun, hget,
      (hpos (by decide) 1 (CartItem.ofProduct sampleCable 4) rfl rfl).2 (by decide)⟩
  · obtain ⟨w1, res, hrun, hget, hnonpos, _⟩ :=
      update_spec (World.holding
        [CartItem.ofProduct sampleCase 1, CartItem.ofProduct sampleCable 4])
        [CartItem.ofProduct sampleCase 1, CartItem.ofProduct sampleCable 4] "p2" 0 rfl
    exact ⟨w1, res, hrun, hget, hnonpos (by decide)⟩
  · obtain ⟨w1, res, hrun, hget, _, hpos⟩ :=
      update_spec (World.holding [CartItem.ofProduct sampleCable 0])
        [CartItem.ofProduct sampleCable 0] "p2" 5 rfl
    exact ⟨w1, res, hrun, hget,
      (hpos (by decide) 0 (CartItem.ofProduct sampleCable 0) rfl rfl).2 (by decide)⟩

/-- C5, as stated, fails. From a fresh browser, `Cart.add(case, 0)` leaves the cart
`[case × 0]`, which holds no item with id `p2`; yet `Cart.update('p2', 5)` leaves the
empty cart, because the filter `i.qty > 0` of `Cart.update` is applied to every item:
the cart read back after the call differs from the cart before it. -/
theorem update_absent_counterexample :
    runOps [.add sampleCase 0] World.fresh =
      .ok { storage := some (JSON.stringify [CartItem.ofProduct sampleCase 0]),
            badge := 0 } ∧
    Cart.get { storage := some (JSON.stringify [CartItem.ofProduct sampleCase 0]),
               badge := 0 } = .ok (.array [CartItem.ofProduct sampleCase 0]) ∧
    (∀ i ∈ [CartItem.ofProduct sampleCase 0], i.id ≠ "p2") ∧
    Cart.update "p2" 5
        { storage := some (JSON.stringify [CartItem.ofProduct sampleCase 0]),
          badge := 0 } =
      .ok { storage := some (JSON.stringify []), badge := 0 } ∧
    Cart.get { storage := some (JSON.stringify []), badge := 0 } = .ok (.array []) ∧
    Cart.get { storage := some (JSON.stringify []), badge := 0 } ≠
      Cart.get { storage := some (JSON.stringify [CartItem.ofProduct sampleCase 0]),
                 badge := 0 } := by
  refine ⟨by decide!, rfl, by decide, by decide!, rfl, ?_⟩
  intro h
  cases h

/-- C5, amended: on every cart whose items all have `qty > 0`, for every `qty` and
every id that matches no item, `Cart.update(id, qty)` succeeds and the cart read back
afterwards is the cart read before the call: same items, same order, same `qty`
values. -/
theorem update_absent_noop (w : World) (items : List CartItem) (id : String) (qty : Int)
    (hget : Cart.get w = .ok (.array items))
    (hpos : ∀ i ∈ items, 0 < i.qty)
    (habsent : ∀ i ∈ items, i.id ≠ id) :
    ∃ w1, Cart.update id qty w = .ok w1 ∧ Cart.get w1 = .ok (.array items) ∧
      Cart.get w1 = Cart.get w := by
  refine ⟨_, update_eq_of_get id qty hget, ?_, ?_⟩
  · rw [updateItems_of_absent id qty items hpos habsent]
    rfl
  · rw [updateItems_of_absent id qty items hpos habsent, hget]
    rfl

/-- Worked instance of amended C5: an update of an id that is not in the cart
`[case × 1, cable × 4]`, with a negative quantity. -/
theorem update_absent_noop_witness :
    ∃ w1, Cart.update "p9" (-3) (World.holding
        [CartItem.ofProduct sampleCase 1, CartItem.ofProduct sampleCable 4]) = .ok w1 ∧
      Cart.get w1 =
        .ok (.array [CartItem.ofProduct sampleCase 1, CartItem.ofProduct sampleCable 4]) ∧
      Cart.get w1 = Cart.get (World.holding
        [CartItem.ofProduct sampleCase 1, CartItem.ofProduct sampleCable 4]) :=
  update_absent_noop _ _ "p9" (-3) rfl (by decide) (by decide)

/-! ## C8: order summary -/

theorem foldl_subtotal_exact (items : List CartItem) (a : ℚ)
    (hprod : ∀ i ∈ items,
      jsMul i.price (i.qty : ℚ) = .fin (i.price * (i.qty : ℚ)))
    (hsum : ∀ k, k ≤ items.length →
      fl (a + ((items.take k).map (fun i => i.price * (i.qty : ℚ))).sum) =
        .fin (a + ((items.take k).map (fun i => i.price * (i.qty : ℚ))).sum)) :
    items.foldl (fun s i => JsNum.add s (jsMul i.price (i.qty : ℚ))) (.fin a) =
      .fin (a + (items.map (fun i => i.price * (i.qty : ℚ))).sum) := by
  induction items generalizing a with
  | nil => simp
  | cons x rest ih =>
    have hx := hprod x (List.mem_cons_self _ _)
    have hrest : ∀ i ∈ rest, jsMul i.price (i.qty : ℚ) = .fin (i.price * (i.qty : ℚ)) :=
      fun i hi => hprod i (List.mem_cons_of_mem _ hi)
    have h1 := hsum 1 (by simp)
    simp only [List.take_succ_cons, List.take_zero, List.map_cons, List.map_nil,
      List.sum_cons, List.sum_nil, add_zero] at h1
    rw [List.foldl_cons, hx,
      show (JsNum.fin a).add (.fin (x.price * (x.qty : ℚ))) =
        fl (a + x.price * (x.qty : ℚ)) from rfl,
      h1, List.map_cons, List.sum_cons, ih (a + x.price * (x.qty : ℚ)) hrest, add_assoc]
    intro k hk
    have := hsum (k + 1) (by simpa using hk)
    simpa [add_assoc] using this

/-- The subtotal is the exact sum of `price × qty` when every product and every
partial sum, taken from the left, is a double. -/
theorem subtotalOf_exact (items : List CartItem)
    (hprod : ∀ i ∈ items,
      jsMul i.price (i.qty : ℚ) = .fin (i.price * (i.qty : ℚ)))
    (hsum : ∀ k, k ≤ items.length →
      fl ((items.take k).map (fun i => i.price * (i.qty : ℚ))).sum =
        .fin ((items.take k).map (fun i => i.price * (i.qty : ℚ))).sum) :
    subtotalOf items = .fin (items.map (fun i => i.price * (i.qty : ℚ))).sum := by
  have := foldl_subtotal_exact items 0 hprod (by simpa using hsum)
  simpa [subtotalOf] using this

/-- On a fresh browser, adding a product with quantity 1 and again with quantity 2
leaves one item with `qty = 3` and the badge at 3. -/
theorem add_one_then_two_fresh (B : Product) :
    runOps [.add B 1, .add B 2] World.fresh =
      .ok { storage := some (JSON.stringify [CartItem.ofProduct B 3]), badge := 3 } := by
  have h1 : Cart.add B 1 World.fresh = _ := add_eq_of_get B 1 rfl
  have hitems : Cart.addItems B 2 (Cart.addItems B 1 []) = [CartItem.ofProduct B 3] := by
    rw [addItems_of_absent B 1 (by simp)]
    have := addItems_append_hit [] B 1 2 (by simp)
    rw [this]
    have hq : ((JsWhole.fin 1).add 2).stored = 3 := by decide!
    rw [hq]
    rfl
  have h2 : Cart.add B 2
      { storage := some (JSON.stringify (Cart.addItems B 1 [])),
        badge := badgeCount (Cart.addItems B 1 []) } = _ :=
    add_eq_of_get B 2 (get_of_badge_update _ _)
  have hbadge : badgeCount [CartItem.ofProduct B 3] = 3 := by
    simp only [badgeCount, List.foldl, CartItem.ofProduct]
    decide!
  simp only [runOps, CartOp.apply, h1, h2, hitems, hbadge]

theorem subtotalOf_one (x : CartItem) :
    subtotalOf [x] = JsNum.add (.fin 0) (jsMul x.price (x.qty : ℚ)) := rfl

theorem subtotalOf_two (x y : CartItem) :
    subtotalOf [x, y] =
      JsNum.add (JsNum.add (.fin 0) (jsMul x.price (x.qty : ℚ)))
        (jsMul y.price (y.qty : ℚ)) := rfl

theorem subtotal_ten_times_three :
    (JsNum.fin 0).add (jsMul 10 ((3 : Int) : ℚ)) = .fin 30 := by decide!

theorem subtotal_five_and_fifteen :
    ((JsNum.fin 0).add (jsMul 5 ((1 : Int) : ℚ))).add (jsMul 7.5 ((2 : Int) : ℚ)) =
      .fin 20 := by decide!

/-- The literal `4.99` denotes the double `2809120267572347 / 2 ^ 49`. -/
theorem shipping_fee_value : fl 4.99 = .fin (2809120267572347 / 562949953421312) := by
  decide!

/-- C8, as stated, fails where the arithmetic is not exact. For one item of price
`0.1` (the double `3602879701896397 / 2 ^ 55`) and `qty = 3` the subtotal is the double
`1351079888211149 / 2 ^ 52` (printed 0.30000000000000004), which is neither three
times the price nor `3 / 10`. For the cart of items priced `5.00 × 1` and `7.50 × 2`
the subtotal is 20 and the shipping is the double `4.99`, but the total is the double
`3517029833999647 / 2 ^ 47` (printed 24.990000000000002), not their sum. -/
theorem order_summary_counterexample :
    fl 0.1 = .fin (3602879701896397 / 36028797018963968) ∧
    (cartSummary [{ CartItem.ofProduct sampleCase 3 with
        price := 3602879701896397 / 36028797018963968 }]).subtotal =
      .fin (1351079888211149 / 4503599627370496) ∧
    (1351079888211149 / 4503599627370496 : ℚ) ≠
      3602879701896397 / 36028797018963968 * 3 ∧
    (1351079888211149 / 4503599627370496 : ℚ) ≠ 3 / 10 ∧
    (cartSummary [{ CartItem.ofProduct sampleCase 1 with price := 5 },
        CartItem.ofProduct sampleCable 2]).subtotal = .fin 20 ∧
    (cartSummary [{ CartItem.ofProduct sampleCase 1 with price := 5 },
        CartItem.ofProduct sampleCable 2]).shipping =
      .fin (2809120267572347 / 562949953421312) ∧
    (cartSummary [{ CartItem.ofProduct sampleCase 1 with price := 5 },
        CartItem.ofProduct sampleCable 2]).total =
      .fin (3517029833999647 / 140737488355328) ∧
    (3517029833999647 / 140737488355328 : ℚ) ≠
      20 + 2809120267572347 / 562949953421312 := by
  refine ⟨by decide!, by decide!, by norm_num, by norm_num, by decide!, by decide!,
    by decide!, by norm_num⟩

/-- C8, amended: the summary of lines 151-153 has `subtotal` equal to the sum of the
products `price × qty` taken from left to right in double arithmetic, which is the
exact sum over the items of `price × qty` whenever every product and every partial sum
is a double; `shipping` is the double `4.99` exactly when the cart is non-empty and 0
for the empty cart; `total` is the double sum of `subtotal` and `shipping`, which is
their exact sum whenever that is a double. The cart page and the checkout page compute
a summary only for a non-empty cart, and then both give that summary. From a fresh
browser, adding a product priced 10.00 with quantity 1 and again with quantity 2
leaves one item with `qty = 3`, subtotal 30, non-zero shipping and as total the double
sum of 30 and the shipping (printed 34.99); two items priced `5.00 × 1` and
`7.50 × 2` have subtotal 20. -/
theorem order_summary_spec :
    (∀ items : List CartItem,
      (cartSummary items).subtotal =
        items.foldl (fun s i => JsNum.add s (jsMul i.price (i.qty : ℚ))) (.fin 0) ∧
      ((∀ i ∈ items, jsMul i.price (i.qty : ℚ) = .fin (i.price * (i.qty : ℚ))) →
        (∀ k, k ≤ items.length →
          fl ((items.take k).map (fun i => i.price * (i.qty : ℚ))).sum =
            .fin ((items.take k).map (fun i => i.price * (i.qty : ℚ))).sum) →
        (cartSummary items).subtotal =
          .fin (items.map (fun i => i.price * (i.qty : ℚ))).sum) ∧
      (cartSummary items).shipping = (if items = [] then .fin 0 else fl 4.99) ∧
      ((cartSummary items).shipping = fl 4.99 ↔ items ≠ []) ∧
      (cartSummary items).total =
        JsNum.add (cartSummary items).subtotal (cartSummary items).shipping ∧
      (∀ s c : ℚ, (cartSummary items).subtotal = .fin s →
        (cartSummary items).shipping = .fin c → fl (s + c) = .fin (s + c) →
        (cartSummary items).total = .fin (s + c))) ∧
    (fl 4.99 = .fin (2809120267572347 / 562949953421312) ∧ fl 4.99 ≠ .fin 0) ∧
    (∀ items : List CartItem,
      cartPageSummary items = (if items = [] then none else some (cartSummary items)) ∧
      checkoutSummary items = cartPageSummary items) ∧
    (∀ A : Product, ∃ w1,
      runOps [.add { A with price := 10 } 1, .add { A with price := 10 } 2] World.fresh =
        .ok w1 ∧
      Cart.get w1 = .ok (.array [CartItem.ofProduct { A with price := 10 } 3]) ∧
      (cartSummary [CartItem.ofProduct { A with price := 10 } 3]).subtotal = .fin 30 ∧
      (cartSummary [CartItem.ofProduct { A with price := 10 } 3]).shipping ≠ .fin 0 ∧
      (cartSummary [CartItem.ofProduct { A with price := 10 } 3]).total =
        JsNum.add (.fin 30) (cartSummary [CartItem.ofProduct { A with price := 10 } 3]).shipping ∧
      (cartSummary [CartItem.ofProduct { A with price := 10 } 3]).total =
        .fin (4924404717552927 / 140737488355328)) ∧
    (∀ a b : CartItem,
      (cartSummary [{ a with price := 5, qty := 1 },
        { b with price := 7.5, qty := 2 }]).subtotal = .fin 20) := by
  have hfee : fl 4.99 ≠ .fin 0 := by decide!
  refine ⟨?_, ⟨shipping_fee_value, hfee⟩, ?_, ?_, ?_⟩
  · intro items
    refine ⟨rfl, subtotalOf_exact items, ?_, ?_, rfl, ?_⟩
    · cases items <;> simp [cartSummary]
    · cases items
      · simpa [cartSummary] using hfee.symm
      · simp [cartSummary]
    · intro s c hs hc hexact
      show JsNum.add (cartSummary items).subtotal (cartSummary items).shipping = _
      rw [hs, hc]
      exact hexact
  · intro items
    cases items with
    | nil => exact ⟨rfl, rfl⟩
    | cons x rest =>
      constructor
      · simp [cartPageSummary]
      · simp [checkoutSummary, cartPageSummary, cartSummary]
  · intro A
    have hsub : subtotalOf [CartItem.ofProduct { A with price := 10 } 3] = .fin 30 := by
      rw [subtotalOf_one]
      exact subtotal_ten_times_three
    have hship : (cartSummary [CartItem.ofProduct { A with price := 10 } 3]).shipping =
        fl 4.99 := by
      simp [cartSummary]
    have htotal : (cartSummary [CartItem.ofProduct { A with price := 10 } 3]).total =
        JsNum.add (.fin 30) (fl 4.99) := by
      have hdef : (cartSummary [CartItem.ofProduct { A with price := 10 } 3]).total =
          JsNum.add (subtotalOf [CartItem.ofProduct { A with price := 10 } 3])
            (cartSummary [CartItem.ofProduct { A with price := 10 } 3]).shipping := rfl
      rw [hdef, hsub, hship]
    refine ⟨{ storage := some (JSON.stringify
      [CartItem.ofProduct { A with price := 10 } 3]), badge := 3 }, ?_, ?_, hsub, ?_, ?_, ?_⟩
    · exact add_one_then_two_fresh { A with price := 10 }
    · rfl
    · rw [hship]
      exact hfee
    · rw [htotal, hship]
    · rw [htotal]
      decide!
  · intro a b
    have hdef : (cartSummary [{ a with price := 5, qty := 1 },
        { b with price := 7.5, qty := 2 }]).subtotal =
        subtotalOf [{ a with price := 5, qty := 1 }, { b with price := 7.5, qty := 2 }] :=
      rfl
    rw [hdef, subtotalOf_two]
    exact subtotal_five_and_fifteen

/-! ## C9: the place-order handler -/

theorem dropWhile_eq_nil_iff_all (p : Char → Bool) (s : List Char) :
    s.dropWhile p = [] ↔ ∀ c ∈ s, p c = true := by
  induction s with
  | nil => simp
  | cons x rest ih =>
    by_cases hx : p x = true
    · simp [List.dropWhile_cons, hx, ih]
    · simp [List.dropWhile_cons, hx]

theorem all_of_all_dropWhile (p : Char → Bool) (s : List Char)
    (h : ∀ c ∈ s.dropWhile p, p c = true) : ∀ c ∈ s, p c = true := by
  induction s with
  | nil => simp
  | cons x rest ih =>
    by_cases hx : p x = true
    · simp only [List.dropWhile_cons, hx, if_true] at h
      intro c hc
      rcases List.mem_cons.mp hc with rfl | hc
      · exact hx
      · exact ih h c hc
    · simp only [List.dropWhile_cons, hx] at h
      exact h

/-- A string trims to the empty string exactly when all its characters are white
space. -/
theorem jsTrim_eq_nil_iff (s : List Char) :
    jsTrim s = [] ↔ ∀ c ∈ s, isJsWhitespace c = true := by
  unfold jsTrim
  rw [List.reverse_eq_nil_iff, dropWhile_eq_nil_iff_all]
  constructor
  · intro h
    apply all_of_all_dropWhile
    intro c hc
    exact h c (List.mem_reverse.mpr hc)
  · intro h c hc
    exact h c ((List.dropWhile_sublist _).subset (List.mem_reverse.mp hc))

theorem makeOrderId_toList (random36 : String) :
    (makeOrderId random36).toList =
      ['O', 'R', 'D', '-'] ++ ((random36.toList.drop 2).take 7).map Char.toUpper := by
  show ("ORD-" ++ String.mk (((random36.toList.drop 2).take 7).map Char.toUpper)).data = _
  rw [String.data_append]

theorem makeOrderId_length (random36 : String) :
    (makeOrderId random36).length = 4 + min 7 (random36.length - 2) := by
  have h := congrArg List.length (makeOrderId_toList random36)
  rw [List.length_append, List.length_map, List.length_take, List.length_drop] at h
  exact h

/-- C9: the place-order handler never throws; it places an order (navigates to the
confirmation page with the generated order identifier, after `Cart.clear()`) if and
only if both the trimmed billing name and the trimmed billing email are non-empty,
that is, each field holds a character that is not white space. The order identifier
is `ORD-` followed by the characters 2 to 8 of `Math.random().toString(36)` in upper
case, so it is never empty; when an order is placed the stored cart is gone and reads
back as empty. When either field is empty after trimming, the handler only raises the
alert: no order identifier is produced and storage and badge are left as they were. -/
theorem placeOrder_spec (billingName billingEmail random36 : String) (w : World) :
    ∃ w1 eff, placeOrder billingName billingEmail random36 w = .ok (w1, eff) ∧
      (eff.orderPlaced = true ↔
        jsTrim billingName.toList ≠ [] ∧ jsTrim billingEmail.toList ≠ []) ∧
      (eff.orderPlaced = true ↔
        (∃ c ∈ billingName.toList, isJsWhitespace c = false) ∧
        (∃ c ∈ billingEmail.toList, isJsWhitespace c = false)) ∧
      (eff.orderPlaced = true →
        ∃ orderId, eff = .navigate "order-success.html" orderId ∧
          eff.orderId? = some orderId ∧
          orderId = "ORD-" ++
            String.mk (((random36.toList.drop 2).take 7).map Char.toUpper) ∧
          orderId.toList =
            ['O', 'R', 'D', '-'] ++ ((random36.toList.drop 2).take 7).map Char.toUpper ∧
          orderId.length = 4 + min 7 (random36.length - 2) ∧
          orderId ≠ "" ∧
          w1.storage = none ∧ Cart.get w1 = .ok (.array [])) ∧
      (eff.orderPlaced = false →
        eff = .alert "Please complete billing name and email" ∧
        eff.orderId? = none ∧ w1 = w) := by
  have hws : ∀ s : List Char,
      jsTrim s ≠ [] ↔ ∃ c ∈ s, isJsWhitespace c = false := by
    intro s
    rw [Ne, jsTrim_eq_nil_iff]
    simp
  by_cases hgate : (jsTrim billingName.toList).isEmpty || (jsTrim billingEmail.toList).isEmpty
  · have hrun : placeOrder billingName billingEmail random36 w =
        .ok (w, Effect.alert "Please complete billing name and email") := by
      simp only [placeOrder, hgate, if_true]
    have hno : ¬ (jsTrim billingName.toList ≠ [] ∧ jsTrim billingEmail.toList ≠ []) := by
      simp only [Bool.or_eq_true, List.isEmpty_iff] at hgate
      tauto
    refine ⟨w, _, hrun, ?_, ?_, ?_, ?_⟩
    · simp only [Effect.orderPlaced, Bool.false_eq_true, false_iff]
      exact hno
    · simp only [Effect.orderPlaced, Bool.false_eq_true, false_iff, ← hws]
      exact hno
    · intro h
      simp [Effect.orderPlaced] at h
    · intro _
      exact ⟨rfl, rfl, rfl⟩
  · have hrun : placeOrder billingName billingEmail random36 w =
        .ok ({ storage := none, badge := 0 },
          Effect.navigate "order-success.html" (makeOrderId random36)) := by
      simp only [placeOrder, hgate]
      rfl
    have hyes : jsTrim billingName.toList ≠ [] ∧ jsTrim billingEmail.toList ≠ [] := by
      simp only [Bool.or_eq_true, List.isEmpty_iff, not_or] at hgate
      exact hgate
    refine ⟨_, _, hrun, ?_, ?_, ?_, ?_⟩
    · simp only [Effect.orderPlaced, true_iff]
      exact hyes
    · simp only [Effect.orderPlaced, true_iff, ← hws]
      exact hyes
    · intro _
      refine ⟨makeOrderId random36, rfl, rfl, rfl, makeOrderId_toList random36,
        makeOrderId_length random36, ?_, rfl, rfl⟩
      intro hempty
      have h := makeOrderId_length random36
      rw [hempty] at h
      have h0 : ("" : String).length = 0 := rfl
      omega
    · intro h
      simp [Effect.orderPlaced] at h

/-- Worked examples of the handler on a cart holding one case: a blank email field
gives the alert and leaves the browser as it was; a name and an email padded with
blanks place the order `ORD-K3J9X2M` and empty the cart. -/
theorem placeOrder_examples :
    placeOrder "Ann" "  " "0.k3j9x2mzq1" (World.holding [CartItem.ofProduct sampleCase 1]) =
      .ok (World.holding [CartItem.ofProduct sampleCase 1],
        Effect.alert "Please complete billing name and email") ∧
    placeOrder "Ann" " a@b.c " "0.k3j9x2mzq1"
        (World.holding [CartItem.ofProduct sampleCase 1]) =
      .ok (World.fresh, Effect.navigate "order-success.html" "ORD-K3J9X2M") :=
  ⟨rfl, rfl⟩

end SustainableStore
